import Mathlib

/-!
Verification of the DeepMedico signal alignment and filtering pipeline.

The development shallowly embeds the two pipeline scripts of the repository,
`src/vis.py` (namespace `Vis`) and `src/vis(8.7).py` (namespace `Vis87`).
Timestamps are modelled as natural-number ticks (tick 0 is the midnight that
pandas uses as resampling origin, `origin='start_day'`); sample values are
exact rationals; a pandas NaN cell is modelled as `Option.none`; a raised
Python exception is modelled as `Except.error`.
-/

namespace Vis

/-- The value of the most recent source sample at or before tick `g`:
the last row of `src` whose timestamp is `≤ g` (for a time-sorted `src`).
This is the semantics of the pandas forward-fill (`pad`) reindexing step that
`DataFrame.resample(...).ffill()` performs for each output grid label. -/
def lastLE {α : Type} (src : List (ℕ × α)) (g : ℕ) : Option (ℕ × α) :=
  (src.filter (fun r => r.1 ≤ g)).getLast?

/-- `spo2.set_index('timestamp').resample(step).ffill()` from
`resample_data` in `src/vis.py`, for a time-sorted source:
the output grid consists of the multiples of the step `Δ` lying in
`[⌊t₀/Δ⌋·Δ, t_last]` (pandas bins with `origin='start_day'`, labelled by the
left bin edge), and each grid label `g` receives the value of the most recent
source row at or before `g`, or NaN (`none`) when no such row exists. -/
def resample_ffill {α : Type} (Δ : ℕ) (src : List (ℕ × α)) : List (ℕ × Option α) :=
  match src.head?, src.getLast? with
  | some f, some l =>
      (List.range (l.1 / Δ + 1 - f.1 / Δ)).map (fun k =>
        let g := (f.1 / Δ + k) * Δ
        (g, (lastLE src g).map (fun r => r.2)))
  | _, _ => []

/-- A pandas DataFrame holding one channel in `src/vis.py`: a parsed
`timestamp` column (ticks) and a numeric `value` column. -/
structure DFrame where
  ts : List ℕ
  vals : List ℚ
deriving DecidableEq

/-- `resample_data` from `src/vis.py`: the SpO₂ channel is resampled onto the
31.25 ms grid (31250 ticks of 1 µs) while the nasal airflow and thoracic
movement frames are returned exactly as passed in. -/
def resample_data (nasal_airflow thoracic_movement spo2 : DFrame) :
    DFrame × DFrame × List (ℕ × Option ℚ) :=
  (nasal_airflow, thoracic_movement,
    resample_ffill 31250 (spo2.ts.zip spo2.vals))

lemma resample_ffill_eq_grid {α : Type} (Δ : ℕ) (src : List (ℕ × α))
    (hne : src ≠ []) :
    resample_ffill Δ src =
      (List.range ((src.getLast hne).1 / Δ + 1 - (src.head hne).1 / Δ)).map
        (fun k =>
          (((src.head hne).1 / Δ + k) * Δ,
            (lastLE src (((src.head hne).1 / Δ + k) * Δ)).map (fun r => r.2))) := by
  unfold resample_ffill
  rw [List.head?_eq_head hne, List.getLast?_eq_getLast src hne]

lemma lastLE_isSome_of_mem_le {α : Type} {src : List (ℕ × α)} {g : ℕ}
    {e : ℕ × α} (he : e ∈ src) (hle : e.1 ≤ g) :
    (lastLE src g).isSome = true := by
  unfold lastLE
  rw [List.getLast?_isSome]
  intro hnil
  have hm : e ∈ src.filter (fun r => r.1 ≤ g) :=
    List.mem_filter.mpr ⟨he, by simpa using hle⟩
  rw [hnil] at hm
  exact absurd hm (List.not_mem_nil e)

lemma lastLE_eq_none_of_lt_all {α : Type} {src : List (ℕ × α)} {g : ℕ}
    (h : ∀ r ∈ src, g < r.1) : lastLE src g = none := by
  unfold lastLE
  rw [List.getLast?_eq_none_iff, List.filter_eq_nil_iff]
  intro r hr
  simp only [decide_eq_true_eq]
  exact fun hrg => absurd (h r hr) (by omega)

/-- On a time-sorted source, the forward-fill lookup returns the unique row
whose timestamp is maximal among those at or before `g`. -/
lemma lastLE_eq_of_sorted {α : Type} :
    ∀ (src : List (ℕ × α)) (g : ℕ) (e : ℕ × α),
      src.Pairwise (fun a b => a.1 < b.1) → e ∈ src → e.1 ≤ g →
      (∀ r ∈ src, r.1 ≤ g → r.1 ≤ e.1) → lastLE src g = some e := by
  intro src
  induction src with
  | nil => exact fun g e _ he _ _ => absurd he (List.not_mem_nil e)
  | cons x tl ih =>
    intro g e hpw he hle hmax
    obtain ⟨hx, htl⟩ := List.pairwise_cons.mp hpw
    rcases List.mem_cons.mp he with rfl | he'
    · have hnil : tl.filter (fun r => r.1 ≤ g) = [] := by
        rw [List.filter_eq_nil_iff]
        intro r hr
        simp only [decide_eq_true_eq]
        intro hrg
        have h1 := hmax r (List.mem_cons_of_mem e hr) hrg
        have h2 := hx r hr
        omega
      unfold lastLE
      rw [List.filter_cons_of_pos (by simpa using hle), hnil]
      rfl
    · have hxg : x.1 ≤ g := le_of_lt (lt_of_lt_of_le (hx e he') hle)
      have ihl : lastLE tl g = some e :=
        ih g e htl he' hle (fun r hr hrg => hmax r (List.mem_cons_of_mem x hr) hrg)
      unfold lastLE at ihl ⊢
      rw [List.filter_cons_of_pos (by simpa using hxg), List.getLast?_cons, ihl]
      rfl

lemma head_le_of_sorted {α : Type} {src : List (ℕ × α)}
    (hsort : src.Chain' (fun a b => a.1 < b.1)) (hne : src ≠ []) :
    ∀ r ∈ src, (src.head hne).1 ≤ r.1 := by
  haveI : IsTrans (ℕ × α) (fun a b : ℕ × α => a.1 < b.1) :=
    ⟨fun _ _ _ h1 h2 => Nat.lt_trans h1 h2⟩
  have hpw := List.chain'_iff_pairwise.mp hsort
  match src with
  | f :: tl =>
    intro r hr
    rcases List.mem_cons.mp hr with rfl | hr'
    · exact Nat.le_refl _
    · exact Nat.le_of_lt ((List.pairwise_cons.mp hpw).1 r hr')

/-- C1.  For a time-sorted nonempty source, at every grid timestamp `g`
(a multiple of the step) between the first and the last source timestamp, the
resampled channel carries exactly the value of the most recent source sample
at or before `g` (and such a sample exists); and every resampled entry lying
strictly before the first source sample carries no value (NaN, no back-fill). -/
theorem resample_ffill_step_hold (Δ : ℕ) (src : List (ℕ × ℚ))
    (hΔ : 0 < Δ) (hne : src ≠ [])
    (hsort : src.Chain' (fun a b => a.1 < b.1)) :
    (∀ g : ℕ, Δ ∣ g → (src.head hne).1 ≤ g → g ≤ (src.getLast hne).1 →
        (lastLE src g).isSome = true ∧
        (g, (lastLE src g).map (fun r => r.2)) ∈ resample_ffill Δ src) ∧
    (∀ p ∈ resample_ffill Δ src, p.1 < (src.head hne).1 → p.2 = none) := by
  rw [resample_ffill_eq_grid Δ src hne]
  constructor
  · intro g hdvd hg1 hg2
    obtain ⟨m, rfl⟩ := hdvd
    refine ⟨lastLE_isSome_of_mem_le (List.head_mem hne) hg1, ?_⟩
    have hcancel : Δ * m / Δ = m := Nat.mul_div_cancel_left m hΔ
    have hq : (src.head hne).1 / Δ ≤ m := by
      have := Nat.div_le_div_right (c := Δ) hg1
      rwa [hcancel] at this
    have hm : m ≤ (src.getLast hne).1 / Δ := by
      have := Nat.div_le_div_right (c := Δ) hg2
      rwa [hcancel] at this
    refine List.mem_map.mpr ⟨m - (src.head hne).1 / Δ, List.mem_range.mpr (by omega), ?_⟩
    have hqk : (src.head hne).1 / Δ + (m - (src.head hne).1 / Δ) = m := by omega
    rw [hqk, Nat.mul_comm]
  · intro p hp hlt
    obtain ⟨k, _, rfl⟩ := List.mem_map.mp hp
    have : lastLE src (((src.head hne).1 / Δ + k) * Δ) = none :=
      lastLE_eq_none_of_lt_all (fun r hr =>
        Nat.lt_of_lt_of_le hlt (head_le_of_sorted hsort hne r hr))
    simpa using congrArg (Option.map (fun r : ℕ × ℚ => r.2)) this

theorem resample_ffill_step_hold_witness :
    (lastLE [((2:ℕ),(5:ℚ)),(5,7)] 4).isSome = true ∧
    ((4:ℕ), (lastLE [((2:ℕ),(5:ℚ)),(5,7)] 4).map (fun r => r.2)) ∈
      resample_ffill 2 [((2:ℕ),(5:ℚ)),(5,7)] :=
  (resample_ffill_step_hold 2 [(2,5),(5,7)] (by decide) (by decide)
      (by simp [List.chain'_cons])).1 4 (by decide) (by decide) (by decide)

/-- C6.  Resampling a channel that already lies on the uniform target grid
(`n` consecutive grid points starting at a grid-aligned `t0`) returns the
identical series — the same timestamps carrying the same values — and the
resampler is a deterministic function of its input. -/
theorem resample_ffill_idempotent (Δ t0 n : ℕ) (v : ℕ → ℚ)
    (hΔ : 0 < Δ) (hgrid : Δ ∣ t0) (hn : 0 < n) :
    resample_ffill Δ ((List.range n).map fun k => (t0 + k * Δ, v k)) =
      (List.range n).map (fun k => (t0 + k * Δ, some (v k))) ∧
    ∀ s : List (ℕ × ℚ), s = (List.range n).map (fun k => (t0 + k * Δ, v k)) →
      resample_ffill Δ s =
        resample_ffill Δ ((List.range n).map fun k => (t0 + k * Δ, v k)) := by
  refine ⟨?_, fun s hs => by rw [hs]⟩
  obtain ⟨c, rfl⟩ := hgrid
  obtain ⟨m, rfl⟩ : ∃ m, n = m + 1 := ⟨n - 1, by omega⟩
  set f : ℕ → ℕ × ℚ := fun k => (Δ * c + k * Δ, v k) with hf
  set src : List (ℕ × ℚ) := (List.range (m + 1)).map f with hsrc
  have hne : src ≠ [] := by rw [hsrc]; simp
  have hhead : src.head? = some (f 0) := by
    rw [hsrc, List.head?_map, List.range_succ_eq_map]
    rfl
  have hlast : src.getLast? = some (f m) := by
    rw [hsrc, List.getLast?_map, List.range_succ, List.getLast?_concat]
    rfl
  have hh2 : src.head hne = f 0 := by
    have h := List.head?_eq_head hne
    rw [hhead] at h
    exact (Option.some.inj h).symm
  have hl2 : src.getLast hne = f m := by
    have h := List.getLast?_eq_getLast src hne
    rw [hlast] at h
    exact (Option.some.inj h).symm
  have hpw : src.Pairwise (fun a b => a.1 < b.1) := by
    rw [hsrc, List.pairwise_map]
    exact (List.pairwise_lt_range (m + 1)).imp
      (fun hab => by
        simp only [hf]
        exact Nat.add_lt_add_left ((Nat.mul_lt_mul_right hΔ).mpr hab) _)
  have hdiv : ∀ k : ℕ, (Δ * c + k * Δ) / Δ = c + k := by
    intro k
    rw [Nat.mul_comm k Δ, ← Nat.mul_add, Nat.mul_div_cancel_left _ hΔ]
  have hfst : ∀ k : ℕ, (f k).1 = Δ * c + k * Δ := fun _ => rfl
  have heq := resample_ffill_eq_grid Δ src hne
  rw [hh2, hl2] at heq
  have hcount : (f m).1 / Δ + 1 - (f 0).1 / Δ = m + 1 := by
    rw [hfst, hfst, hdiv, hdiv]
    omega
  rw [heq, hcount]
  refine List.map_congr_left (fun k hk => ?_)
  have h0 : (f 0).1 / Δ = c := by
    rw [hfst, hdiv]
    omega
  have hg : ((f 0).1 / Δ + k) * Δ = Δ * c + k * Δ := by
    rw [h0]
    ring
  have hlook : lastLE src (Δ * c + k * Δ) = some (f k) := by
    refine lastLE_eq_of_sorted src (Δ * c + k * Δ) (f k) hpw
      (List.mem_map.mpr ⟨k, hk, rfl⟩) (Nat.le_refl _) ?_
    intro r hr hrle
    obtain ⟨j, _, rfl⟩ := List.mem_map.mp hr
    exact hrle
  rw [hg, hlook]
  rfl

theorem resample_ffill_idempotent_witness :
    resample_ffill 2 ((List.range 3).map fun k => (4 + k * 2, (k:ℚ))) =
      (List.range 3).map (fun k : ℕ => ((4 + k * 2 : ℕ), some ((k:ℚ)))) :=
  (resample_ffill_idempotent 2 4 3 (fun k => (k:ℚ)) (by decide) (by decide)
      (by decide)).1

/-- C10.  `resample_data` acts only on the low-rate SpO₂ channel: the nasal
airflow and thoracic movement frames come back exactly as passed in. -/
theorem resample_data_passthrough :
    ∀ nasal_airflow thoracic_movement spo2 : DFrame,
      (resample_data nasal_airflow thoracic_movement spo2).1 = nasal_airflow ∧
      (resample_data nasal_airflow thoracic_movement spo2).2.1 = thoracic_movement :=
  fun _ _ _ => ⟨rfl, rfl⟩

end Vis

namespace Vis87

/-- `load_signal` from `src/vis(8.7).py`.  A data row is represented by the
numeric-parse outcome of its `value_str` field (`pd.to_numeric(...,
errors='coerce')`: `none` is the NaN a malformed field coerces to).  The NaN
rows are dropped, the survivors are reindexed from 0 (`reset_index(drop=True)`)
and the time axis is `index / rate` seconds (`pd.to_timedelta`). -/
def load_signal (rows : List (Option ℚ)) (rate : ℚ) : List (ℚ × ℚ) :=
  let numeric_data := rows.filterMap id
  numeric_data.enum.map (fun p => ((p.1 : ℚ) / rate, p.2))

lemma count_none_filterMap_id {α : Type} [DecidableEq α] :
    ∀ rows : List (Option α),
      (rows.filterMap id).length = rows.length - rows.count none
  | [] => rfl
  | none :: tl => by
      have hle := List.count_le_length (l := tl) (a := (none : Option α))
      simp [List.count_cons, count_none_filterMap_id tl]
  | some a :: tl => by
      have hle := List.count_le_length (l := tl) (a := (none : Option α))
      simp [List.count_cons, count_none_filterMap_id tl]
      omega

/-- C4.  Loading a signal file with `rows.length` data rows of which
`rows.count none` fail numeric parsing yields a channel of exactly
`rows.length - rows.count none` samples, and the `i`-th surviving sample is
stamped `i / rate` seconds — `i` being its position in the cleaned, reindexed
sequence, not its original row position. -/
theorem load_signal_clean_reindex (rows : List (Option ℚ)) (rate : ℚ)
    (hrate : 0 < rate) :
    (load_signal rows rate).length = rows.length - rows.count none ∧
    ∀ i : ℕ, (load_signal rows rate).get? i =
      ((rows.filterMap id).get? i).map (fun v => ((i : ℚ) / rate, v)) := by
  constructor
  · unfold load_signal
    rw [List.length_map, List.enum_length]
    exact count_none_filterMap_id rows
  · intro i
    unfold load_signal
    rw [List.get?_map, List.get?_enum]
    cases (rows.filterMap id).get? i <;> rfl

theorem load_signal_clean_reindex_witness :
    (load_signal [some 5, none, some 7] 4).length = 3 - 1 ∧
    (load_signal [some 5, none, some 7] 4).get? 1 = some ((1 : ℚ) / 4, 7) := by
  have h := load_signal_clean_reindex [some 5, none, some 7] 4 (by norm_num)
  refine ⟨by simpa using h.1, ?_⟩
  rw [h.2 1]
  rfl

/-- An event interval as assembled by the event-plotting section of `plot` in
`src/vis(8.7).py`: the raw `event` label together with the parsed `start` and
`end` bounds (named `stop` here because `end` is reserved), in seconds. -/
structure EventInterval where
  label : String
  start : ℚ
  stop : ℚ
deriving DecidableEq

/-- The event-row cleanup in `plot` of `src/vis(8.7).py`: each raw row carries
the numeric-parse outcomes of its `start` and `end` fields
(`pd.to_numeric(..., errors='coerce')`), and
`events.dropna(subset=['start','end'])` keeps exactly the rows where both
parsed.  No further validation is applied to the surviving rows. -/
def parse_events (rows : List (String × Option ℚ × Option ℚ)) :
    List EventInterval :=
  rows.filterMap (fun r =>
    match r.2.1, r.2.2 with
    | some s, some e => some ⟨r.1, s, e⟩
    | _, _ => none)

/-- C5 counterexample.  The row `("apnea", 45, 25)` parses on both bounds and
is therefore kept by the cleanup even though its end precedes its start; the
returned interval violates `start ≤ end`, contradicting the claim that such a
row is dropped. -/
theorem parse_events_end_lt_start_cex :
    ¬ (∀ ev ∈ parse_events [("apnea", some 45, some (25:ℚ))],
        ev.start ≤ ev.stop) := by
  intro h
  have := h ⟨"apnea", 45, 25⟩ (by decide)
  norm_num at this

/-- C5 amended.  Event rows whose `start` or `end` fields fail numeric parsing
are dropped and every returned interval comes verbatim from a row on which both
bounds parsed — but a row whose parsed end is strictly less than its parsed
start is kept and propagated, so `start ≤ stop` is not guaranteed. -/
theorem parse_events_drop_unparseable
    (rows : List (String × Option ℚ × Option ℚ)) :
    (∀ (l : String) (s e : ℚ), (l, some s, some e) ∈ rows →
        (⟨l, s, e⟩ : EventInterval) ∈ parse_events rows) ∧
    (∀ ev ∈ parse_events rows,
        ∃ l s e, (l, some s, some e) ∈ rows ∧ ev = ⟨l, s, e⟩) := by
  constructor
  · intro l s e hmem
    exact List.mem_filterMap.mpr ⟨(l, some s, some e), hmem, rfl⟩
  · intro ev hev
    obtain ⟨r, hr, hfr⟩ := List.mem_filterMap.mp hev
    obtain ⟨l, s?, e?⟩ := r
    match s?, e? with
    | some s, some e => exact ⟨l, s, e, hr, (Option.some.inj hfr).symm⟩
    | some _, none => simp at hfr
    | none, _ => simp at hfr

theorem parse_events_drop_unparseable_witness :
    (⟨"apnea", (45:ℚ), (25:ℚ)⟩ : EventInterval) ∈
      parse_events [("apnea", some 45, some 25), ("hypopnea", none, some 3)] ∧
    ∀ ev ∈ parse_events [("apnea", some (45:ℚ), some (25:ℚ)),
        ("hypopnea", none, some 3)],
      ∃ l s e, (l, some s, some e) ∈
          [("apnea", some (45:ℚ), some (25:ℚ)), ("hypopnea", none, some 3)] ∧
        ev = ⟨l, s, e⟩ :=
  ⟨(parse_events_drop_unparseable _).1 "apnea" 45 25 (by decide),
   (parse_events_drop_unparseable _).2⟩

end Vis87

namespace Vis

/-- Truncating dot product of a coefficient list with a (reversed) signal
history, as used by the direct-form difference equation of `scipy.signal.lfilter`. -/
def dot : List ℚ → List ℚ → ℚ
  | [], _ => 0
  | _, [] => 0
  | u :: us, v :: vs => u * v + dot us vs

/-- One forward pass of the linear difference equation
`a₀·y[n] = Σ bₖ·x[n-k] − Σ_{k≥1} aₖ·y[n-k]` over the remaining input, carrying
the reversed histories of consumed inputs and produced outputs. -/
def lfilterGo (b arest : List ℚ) (a0 : ℚ) (xh yh : List ℚ) : List ℚ → List ℚ
  | [] => []
  | x :: xs =>
    let y := (dot b (x :: xh) - dot arest yh) / a0
    y :: lfilterGo b arest a0 (x :: xh) (y :: yh) xs

/-- `scipy.signal.lfilter(b, a, x)` with zero initial filter state: the causal
IIR difference equation normalised by `a[0]`. -/
def lfilter (b a : List ℚ) (x : List ℚ) : List ℚ :=
  lfilterGo b a.tail (a.headD 1) [] [] x

/-- The odd signal extension `scipy.signal.odd_ext(x, edge)` that
`scipy.signal.filtfilt(..., method='pad', padtype='odd')` prepends and appends
before filtering: `edge` points reflected about each end value. -/
def odd_ext (edge : ℕ) (x : List ℚ) : List ℚ :=
  ((List.range edge).map (fun i => 2 * x.headD 0 - x.getD (edge - i) 0))
    ++ x ++
    ((List.range edge).map (fun i => 2 * x.getLastD 0 - x.getD (x.length - 2 - i) 0))

/-- `scipy.signal.filtfilt(b, a, x)` with its default padding
`padlen = 3 * max(len(a), len(b))`: reject inputs not longer than `padlen`
(scipy raises `ValueError: The length of the input vector x must be greater
than padlen`), otherwise odd-extend, filter forward, filter the reversal
backward, undo the reversal and slice the extension off.  The
`lfilter_zi`-based initial state scipy uses to shrink the startup transient is
a numerical detail abstracted to the zero state; it affects neither the
length-validation behaviour nor the output length, which are all that the
claims below rely on. -/
def filtfilt (b a : List ℚ) (x : List ℚ) : Except String (List ℚ) :=
  let edge := 3 * max a.length b.length
  if x.length ≤ edge then
    .error "The length of the input vector x must be greater than padlen"
  else
    let ext := odd_ext edge x
    let y0 := lfilter b a ext
    let y1 := lfilter b a y0.reverse
    .ok (((y1.reverse).drop edge).take x.length)

/-- A designed digital band-pass filter as returned by `scipy.signal.butter`:
the validated normalized critical frequencies and the transfer-function
coefficient vectors `b` and `a`. -/
structure BAFilt where
  wn_low : ℚ
  wn_high : ℚ
  b : List ℚ
  a : List ℚ
deriving DecidableEq

/-- `scipy.signal.butter(order, [wlow, whigh], btype='band')`, i.e. the
digital-filter branch of `scipy.signal.iirfilter`: raise for non-positive
critical frequencies, for `Wn[0] ≥ Wn[1]`, and for frequencies at or above 1
(the Nyquist in normalized units); otherwise design the Butterworth band-pass
of the given order.  The validated `Wn` is used as given — never clamped.  The
actual coefficient values are transcendental floating-point numbers with no
exact embedding; they are abstracted as a placeholder carrying the correct tap
count, `2*order + 1` for a band-pass, with a monic denominator — only the tap
counts and the validation outcome are relied on below. -/
def butter (order : ℕ) (wlow whigh : ℚ) : Except String BAFilt :=
  if wlow ≤ 0 ∨ whigh ≤ 0 then
    .error "filter critical frequencies must be greater than 0"
  else if ¬ wlow < whigh then
    .error "Wn[0] must be less than Wn[1]"
  else if 1 ≤ wlow ∨ 1 ≤ whigh then
    .error "Digital filter critical frequencies must be 0 < Wn < 1"
  else
    .ok ⟨wlow, whigh,
      List.replicate (2 * order + 1) 0, 1 :: List.replicate (2 * order) 0⟩

/-- `butter_bandpass` from `src/vis.py`: normalize the cutoffs by the Nyquist
frequency `0.5 * fs` and design the Butterworth band-pass.  A zero Nyquist
makes the Python division raise `ZeroDivisionError`. -/
def butter_bandpass (lowcut highcut fs : ℚ) (order : ℕ) : Except String BAFilt :=
  let nyquist := (1 / 2) * fs
  if nyquist = 0 then .error "ZeroDivisionError: float division by zero"
  else butter order (lowcut / nyquist) (highcut / nyquist)

/-- `apply_filter` from `src/vis.py`: design the band-pass for the given
cutoffs and rate, then run the forward-backward (zero-phase) pass over the
data. -/
def apply_filter (data : List ℚ) (lowcut highcut fs : ℚ) (order : ℕ) :
    Except String (List ℚ) := do
  let f ← butter_bandpass lowcut highcut fs order
  filtfilt f.b f.a data

lemma butter_bandpass_def (lowcut highcut fs : ℚ) (order : ℕ) :
    butter_bandpass lowcut highcut fs order =
      if (1 / 2) * fs = 0 then .error "ZeroDivisionError: float division by zero"
      else butter order (lowcut / ((1 / 2) * fs)) (highcut / ((1 / 2) * fs)) :=
  rfl

lemma filtfilt_def (b a x : List ℚ) :
    filtfilt b a x =
      if x.length ≤ 3 * max a.length b.length then
        .error "The length of the input vector x must be greater than padlen"
      else
        .ok ((((lfilter b a
            (lfilter b a (odd_ext (3 * max a.length b.length) x)).reverse).reverse).drop
              (3 * max a.length b.length)).take x.length) :=
  rfl

/-- C3.  For a positive sampling rate, `butter_bandpass` succeeds exactly when
`0 < lowcut < highcut < fs/2`; any violation of that ordering — including
cutoffs at or above the Nyquist frequency — fails at construction time, and a
successful construction carries the exactly-normalized cutoffs, never clamped
ones. -/
lemma butter_ok_of (order : ℕ) (wlow whigh : ℚ)
    (h : 0 < wlow ∧ wlow < whigh ∧ whigh < 1) :
    butter order wlow whigh =
      .ok ⟨wlow, whigh,
        List.replicate (2 * order + 1) 0, 1 :: List.replicate (2 * order) 0⟩ := by
  obtain ⟨h1, h2, h3⟩ := h
  unfold butter
  rw [if_neg (by push_neg; constructor <;> linarith),
    if_neg (not_not_intro h2),
    if_neg (by push_neg; constructor <;> linarith)]

lemma butter_err_of (order : ℕ) (wlow whigh : ℚ)
    (h : ¬ (0 < wlow ∧ wlow < whigh ∧ whigh < 1)) :
    ∃ msg, butter order wlow whigh = .error msg := by
  unfold butter
  by_cases hc1 : wlow ≤ 0 ∨ whigh ≤ 0
  · rw [if_pos hc1]
    exact ⟨_, rfl⟩
  · rw [if_neg hc1]
    by_cases hc2 : wlow < whigh
    · rw [if_neg (not_not_intro hc2)]
      by_cases hc3 : 1 ≤ wlow ∨ 1 ≤ whigh
      · rw [if_pos hc3]
        exact ⟨_, rfl⟩
      · push_neg at hc1 hc3
        exact absurd ⟨by linarith [hc1.1], hc2, by linarith [hc3.2]⟩ h
    · rw [if_pos hc2]
      exact ⟨_, rfl⟩

/-- C3.  For a positive sampling rate, `butter_bandpass` succeeds exactly when
`0 < lowcut < highcut < fs/2`; any violation of that ordering — including
cutoffs at or above the Nyquist frequency — fails at construction time, and a
successful construction carries the exactly-normalized cutoffs, never clamped
ones. -/
theorem butter_bandpass_validation (lowcut highcut fs : ℚ) (order : ℕ)
    (hfs : 0 < fs) :
    ((butter_bandpass lowcut highcut fs order).isOk = true ↔
      (0 < lowcut ∧ lowcut < highcut ∧ highcut < fs / 2)) ∧
    (∀ f, butter_bandpass lowcut highcut fs order = .ok f →
      f.wn_low = lowcut / (fs / 2) ∧ f.wn_high = highcut / (fs / 2)) := by
  have hhalf : ((1 : ℚ) / 2) * fs = fs / 2 := by ring
  have hny : (0 : ℚ) < fs / 2 := by positivity
  have k1 : ∀ a : ℚ, 0 < a / (fs / 2) ↔ 0 < a := fun a => by
    rw [lt_div_iff₀ hny, zero_mul]
  have k2 : lowcut / (fs / 2) < highcut / (fs / 2) ↔ lowcut < highcut := by
    rw [div_lt_div_iff hny hny]
    constructor <;> intro h <;> nlinarith
  have k3 : ∀ a : ℚ, a / (fs / 2) < 1 ↔ a < fs / 2 := fun a => div_lt_one hny
  rw [butter_bandpass_def, hhalf, if_neg (ne_of_gt hny)]
  by_cases hV : 0 < lowcut ∧ lowcut < highcut ∧ highcut < fs / 2
  · rw [butter_ok_of order _ _
      ⟨(k1 lowcut).mpr hV.1, k2.mpr hV.2.1, (k3 highcut).mpr hV.2.2⟩]
    refine ⟨iff_of_true rfl hV, fun f hf => ?_⟩
    have h := Except.ok.inj hf
    subst h
    exact ⟨rfl, rfl⟩
  · obtain ⟨msg, herr⟩ := butter_err_of order (lowcut / (fs / 2)) (highcut / (fs / 2))
      (fun hw => hV ⟨(k1 lowcut).mp hw.1, k2.mp hw.2.1, (k3 highcut).mp hw.2.2⟩)
    rw [herr]
    exact ⟨iff_of_false (by simp [Except.isOk, Except.toBool]) hV,
      fun f hf => nomatch hf⟩

theorem butter_bandpass_validation_witness :
    (butter_bandpass (17/100) (4/10) 32 5).isOk = true :=
  ((butter_bandpass_validation (17/100) (4/10) 32 5 (by norm_num)).1).mpr
    (by norm_num)

lemma lfilterGo_length (b arest : List ℚ) (a0 : ℚ) :
    ∀ (xh yh xs : List ℚ), (lfilterGo b arest a0 xh yh xs).length = xs.length
  | _, _, [] => rfl
  | xh, yh, x :: xs => by
      simp only [lfilterGo, List.length_cons]
      rw [lfilterGo_length]

lemma lfilter_length (b a x : List ℚ) : (lfilter b a x).length = x.length :=
  lfilterGo_length b a.tail (a.headD 1) [] [] x

lemma odd_ext_length (edge : ℕ) (x : List ℚ) :
    (odd_ext edge x).length = x.length + 2 * edge := by
  simp only [odd_ext, List.length_append, List.length_map, List.length_range]
  omega

lemma butter_bandpass_eq_ok_of_valid (lowcut highcut fs : ℚ) (order : ℕ)
    (h1 : 0 < lowcut) (h2 : lowcut < highcut) (h3 : highcut < fs / 2) :
    butter_bandpass lowcut highcut fs order =
      .ok ⟨lowcut / (fs / 2), highcut / (fs / 2),
        List.replicate (2 * order + 1) 0, 1 :: List.replicate (2 * order) 0⟩ := by
  have hny : (0 : ℚ) < fs / 2 := by linarith
  have hhalf : ((1 : ℚ) / 2) * fs = fs / 2 := by ring
  rw [butter_bandpass_def, hhalf, if_neg (ne_of_gt hny)]
  exact butter_ok_of order _ _
    ⟨div_pos h1 hny,
     by rw [div_lt_div_iff hny hny]; nlinarith,
     (div_lt_one hny).mpr h3⟩

/-- C7.  Under a valid filter specification, filtering a channel shorter than
or equal to the scipy padding length `3 * (2*order + 1)` fails with an error
(the `ValueError` that `filtfilt` raises, which `main` does not catch, so the
run aborts) instead of returning an edge-distorted result; a channel longer
than the padding length filters successfully into an output of the same
length as the input. -/
theorem apply_filter_min_length (data : List ℚ) (lowcut highcut fs : ℚ)
    (order : ℕ) (h1 : 0 < lowcut) (h2 : lowcut < highcut) (h3 : highcut < fs / 2) :
    (data.length ≤ 3 * (2 * order + 1) →
      (apply_filter data lowcut highcut fs order).isOk = false) ∧
    (3 * (2 * order + 1) < data.length →
      ∃ y, apply_filter data lowcut highcut fs order = .ok y ∧
        y.length = data.length) := by
  have happ : apply_filter data lowcut highcut fs order =
      filtfilt (List.replicate (2 * order + 1) 0)
        (1 :: List.replicate (2 * order) 0) data := by
    unfold apply_filter
    rw [butter_bandpass_eq_ok_of_valid lowcut highcut fs order h1 h2 h3]
    rfl
  have hmax : max ((1:ℚ) :: List.replicate (2 * order) (0:ℚ)).length
      (List.replicate (2 * order + 1) (0:ℚ)).length = 2 * order + 1 := by
    simp
  constructor
  · intro hshort
    rw [happ, filtfilt_def, if_pos (by rw [hmax]; exact hshort)]
    rfl
  · intro hlong
    rw [happ, filtfilt_def, if_neg (by rw [hmax]; omega)]
    refine ⟨_, rfl, ?_⟩
    rw [List.length_take, List.length_drop, List.length_reverse,
      lfilter_length, List.length_reverse, lfilter_length, odd_ext_length,
      hmax]
    omega

theorem apply_filter_min_length_witness :
    (apply_filter (List.replicate 10 1) (17/100) (4/10) 32 5).isOk = false ∧
    ∃ y, apply_filter (List.replicate 34 1) (17/100) (4/10) 32 5 = .ok y ∧
      y.length = (List.replicate 34 (1:ℚ)).length :=
  ⟨(apply_filter_min_length (List.replicate 10 1) (17/100) (4/10) 32 5
      (by norm_num) (by norm_num) (by norm_num)).1 (by simp),
   (apply_filter_min_length (List.replicate 34 1) (17/100) (4/10) 32 5
      (by norm_num) (by norm_num) (by norm_num)).2 (by simp)⟩

/-- The respiratory-channel portion of `main` from `src/vis.py`, with the
DataFrame object store made explicit.  `read_data` allocates the nasal airflow
DataFrame (address 0) and the thoracic movement DataFrame (address 1);
`resample_data` hands these very objects back unchanged, and the assignments
`nasal_airflow['value'] = apply_filter(...)` and
`thoracic_movement['value'] = apply_filter(...)` are pandas in-place column
writes into the SAME stored frames, rendered as `List.set` at the original
addresses.  An exception from either `apply_filter` call propagates out of
`main` uncaught. -/
def main_respiratory (flow thorac : DFrame) : Except String (List DFrame) :=
  match apply_filter flow.vals (17/100) (4/10) 32 5,
        apply_filter thorac.vals (17/100) (4/10) 32 5 with
  | .ok fn, .ok ft =>
      .ok (([flow, thorac].set 0 ⟨flow.ts, fn⟩).set 1 ⟨thorac.ts, ft⟩)
  | .error e, _ => .error e
  | _, .error e => .error e

lemma dot_zero_left : ∀ (n : ℕ) (v : List ℚ), dot (List.replicate n 0) v = 0
  | 0, _ => by simp [dot]
  | _ + 1, [] => by simp [List.replicate_succ, dot]
  | n + 1, x :: xs => by
      simp only [List.replicate_succ, dot, dot_zero_left n xs]
      ring

lemma lfilterGo_zero (n m : ℕ) : ∀ (xs xh yh : List ℚ),
    lfilterGo (List.replicate n 0) (List.replicate m 0) 1 xh yh xs =
      List.replicate xs.length 0
  | [], _, _ => rfl
  | x :: xs, xh, yh => by
      simp only [lfilterGo, dot_zero_left, sub_self, zero_div, div_one,
        List.length_cons, List.replicate_succ]
      rw [lfilterGo_zero n m xs]

lemma lfilter_zero (n m : ℕ) (x : List ℚ) :
    lfilter (List.replicate n 0) (1 :: List.replicate m 0) x =
      List.replicate x.length 0 := by
  unfold lfilter
  simp only [List.tail_cons, List.headD_cons]
  exact lfilterGo_zero n m x [] []

lemma drop_replicate {α : Type} : ∀ (n m : ℕ) (a : α),
    (List.replicate m a).drop n = List.replicate (m - n) a
  | 0, m, a => by simp
  | n + 1, 0, a => by simp
  | n + 1, m + 1, a => by
      rw [List.replicate_succ, List.drop_succ_cons, drop_replicate n m a,
        Nat.succ_sub_succ]

lemma take_replicate {α : Type} : ∀ (n m : ℕ) (a : α),
    (List.replicate m a).take n = List.replicate (min n m) a
  | 0, m, a => by simp
  | n + 1, 0, a => by simp
  | n + 1, m + 1, a => by
      rw [List.replicate_succ, List.take_succ_cons, take_replicate n m a,
        Nat.succ_min_succ, List.replicate_succ]

lemma filtfilt_zero (x : List ℚ) (hx : 33 < x.length) :
    filtfilt (List.replicate 11 0) (1 :: List.replicate 10 0) x =
      .ok (List.replicate x.length 0) := by
  have hE : 3 * max ((1:ℚ) :: List.replicate 10 (0:ℚ)).length
      (List.replicate 11 (0:ℚ)).length = 33 := by simp
  have h1 : lfilter (List.replicate 11 0) (1 :: List.replicate 10 0)
      (odd_ext 33 x) = List.replicate (x.length + 2 * 33) 0 := by
    rw [lfilter_zero 11 10, odd_ext_length]
  rw [filtfilt_def, if_neg (by rw [hE]; omega), hE, h1,
    List.reverse_replicate, lfilter_zero 11 10, List.length_replicate,
    List.reverse_replicate, drop_replicate, take_replicate]
  have hmin : min x.length (x.length + 2 * 33 - 33) = x.length := by omega
  rw [hmin]

lemma apply_filter_zero (data : List ℚ) (h : 33 < data.length) :
    apply_filter data (17/100) (4/10) 32 5 =
      .ok (List.replicate data.length 0) := by
  have happ : apply_filter data (17/100) (4/10) 32 5 =
      filtfilt (List.replicate 11 0) (1 :: List.replicate 10 0) data := by
    unfold apply_filter
    rw [butter_bandpass_eq_ok_of_valid (17/100) (4/10) 32 5
      (by norm_num) (by norm_num) (by norm_num)]
    rfl
  rw [happ, filtfilt_zero data h]

lemma main_respiratory_ones :
    main_respiratory ⟨List.range 34, List.replicate 34 1⟩
        ⟨List.range 34, List.replicate 34 1⟩ =
      .ok [⟨List.range 34, List.replicate 34 0⟩,
           ⟨List.range 34, List.replicate 34 0⟩] := by
  unfold main_respiratory
  rw [show (⟨List.range 34, List.replicate 34 1⟩ : DFrame).vals =
      List.replicate 34 (1:ℚ) from rfl,
    apply_filter_zero (List.replicate 34 1) (by simp)]
  simp

/-- C8 counterexample.  Running `main`'s filter stage on a concrete 34-sample
constant nasal-airflow channel: afterwards the DataFrame that `read_data`
allocated for the channel (heap address 0) no longer equals the loaded frame —
its value column was overwritten in place by the filtered output (a band-pass
filter annihilates a constant signal), so the original unfiltered channel is
no longer available, contradicting the claim. -/
theorem main_mutates_source_cex :
    main_respiratory ⟨List.range 34, List.replicate 34 1⟩
        ⟨List.range 34, List.replicate 34 1⟩ =
      .ok [⟨List.range 34, List.replicate 34 0⟩,
           ⟨List.range 34, List.replicate 34 0⟩] ∧
    (⟨List.range 34, List.replicate 34 0⟩ : DFrame) ≠
      ⟨List.range 34, List.replicate 34 1⟩ := by
  refine ⟨main_respiratory_ones, ?_⟩
  intro h
  have hv : List.replicate 34 (0:ℚ) = List.replicate 34 1 :=
    congrArg DFrame.vals h
  rw [List.replicate_inj] at hv
  rcases hv.2 with h34 | h01
  · exact absurd h34 (by norm_num)
  · exact absurd h01 (by norm_num)

/-- C8 amended.  The resampling stage mutates nothing — `resample_data`
returns the respiratory frames untouched and a freshly built SpO₂ series — but
`main` then writes each filtered output into the value column of the same
respiratory frame object it loaded; when `main`'s filter stage succeeds, the
frames at the original addresses keep their timestamps but now hold the
filtered values, and the original unfiltered respiratory values are no longer
referenced anywhere. -/
theorem main_overwrites_respiratory (flow thorac : DFrame) (h : List DFrame)
    (hok : main_respiratory flow thorac = .ok h) :
    ∃ fn ft,
      apply_filter flow.vals (17/100) (4/10) 32 5 = .ok fn ∧
      apply_filter thorac.vals (17/100) (4/10) 32 5 = .ok ft ∧
      h = [⟨flow.ts, fn⟩, ⟨thorac.ts, ft⟩] ∧
      (∀ spo2 : DFrame, resample_data flow thorac spo2 =
        (flow, thorac, resample_ffill 31250 (spo2.ts.zip spo2.vals))) := by
  unfold main_respiratory at hok
  cases hfn : apply_filter flow.vals (17/100) (4/10) 32 5 with
  | error e =>
      rw [hfn] at hok
      cases hft : apply_filter thorac.vals (17/100) (4/10) 32 5 with
      | error e2 =>
          rw [hft] at hok
          exact nomatch hok
      | ok ft =>
          rw [hft] at hok
          exact nomatch hok
  | ok fn =>
      cases hft : apply_filter thorac.vals (17/100) (4/10) 32 5 with
      | error e =>
          rw [hfn, hft] at hok
          exact nomatch hok
      | ok ft =>
          rw [hfn, hft] at hok
          exact ⟨fn, ft, rfl, rfl, (Except.ok.inj hok).symm, fun _ => rfl⟩

theorem main_overwrites_respiratory_witness :
    ∃ fn ft,
      apply_filter (List.replicate 34 1) (17/100) (4/10) 32 5 = .ok fn ∧
      apply_filter (List.replicate 34 1) (17/100) (4/10) 32 5 = .ok ft ∧
      [(⟨List.range 34, List.replicate 34 0⟩ : DFrame),
       ⟨List.range 34, List.replicate 34 0⟩] =
        [⟨List.range 34, fn⟩, ⟨List.range 34, ft⟩] ∧
      (∀ spo2 : DFrame,
        resample_data ⟨List.range 34, List.replicate 34 1⟩
            ⟨List.range 34, List.replicate 34 1⟩ spo2 =
          (⟨List.range 34, List.replicate 34 1⟩,
           ⟨List.range 34, List.replicate 34 1⟩,
           resample_ffill 31250 (spo2.ts.zip spo2.vals))) :=
  main_overwrites_respiratory
    ⟨List.range 34, List.replicate 34 1⟩
    ⟨List.range 34, List.replicate 34 1⟩
    [⟨List.range 34, List.replicate 34 0⟩, ⟨List.range 34, List.replicate 34 0⟩]
    main_respiratory_ones

/-- A participant directory as the two scripts see it: each field is the
content of one input file, or `none` when that file is absent.  Signal file
contents are abstracted to their parsed `(timestamp ticks, value)` rows, and
event file contents to `(label, parsed start, parsed end)` rows, since the
claims settled against this model depend only on file presence. -/
structure Folder where
  flow : Option (List (ℕ × ℚ))
  thorac : Option (List (ℕ × ℚ))
  spo2 : Option (List (ℕ × ℚ))
  events : Option (List (String × Option ℚ × Option ℚ))

/-- `read_data` from `src/vis.py`: `pd.read_csv` is called unconditionally on
all four files — `Flow.txt`, `Thorac.txt`, `SPO2.txt` and `Flow Events.txt` —
so a missing file raises `FileNotFoundError` and aborts the run; there is no
existence check and no warning path. -/
def read_data (folder : Folder) :
    Except String (DFrame × DFrame × DFrame × List (String × Option ℚ × Option ℚ)) :=
  match folder.flow, folder.thorac, folder.spo2, folder.events with
  | some nf, some tf, some sf, some ev =>
      .ok (⟨nf.map Prod.fst, nf.map Prod.snd⟩,
           ⟨tf.map Prod.fst, tf.map Prod.snd⟩,
           ⟨sf.map Prod.fst, sf.map Prod.snd⟩, ev)
  | _, _, _, _ => .error "FileNotFoundError"

end Vis

namespace Vis87

/-- A participant directory as `src/vis(8.7).py` reads it: signal file
contents abstracted to the numeric-parse outcomes of their value fields, event
file contents to `(label, parsed start, parsed end)` rows; `none` marks an
absent file. -/
structure Folder where
  flow : Option (List (Option ℚ))
  thorac : Option (List (Option ℚ))
  spo2 : Option (List (Option ℚ))
  events : Option (List (String × Option ℚ × Option ℚ))

/-- The data-loading behaviour of `plot` from `src/vis(8.7).py`: the three
signal files are loaded unconditionally (32 Hz for the respiratory channels,
4 Hz for SpO₂), while the events file is guarded by `os.path.exists` — when it
is absent the function prints a warning, skips event plotting, and carries on
with no events.  The boolean records whether the missing-events warning was
printed. -/
def plot (folder : Folder) :
    Except String ((List (ℚ × ℚ)) × (List (ℚ × ℚ)) × (List (ℚ × ℚ)) ×
      List EventInterval × Bool) :=
  match folder.flow, folder.thorac, folder.spo2 with
  | some nf, some tf, some sf =>
      match folder.events with
      | some rows =>
          .ok (load_signal nf 32, load_signal tf 32, load_signal sf 4,
            parse_events rows, false)
      | none =>
          .ok (load_signal nf 32, load_signal tf 32, load_signal sf 4,
            [], true)
  | _, _, _ => .error "FileNotFoundError"

end Vis87

/-- C9 counterexample.  A concrete participant directory holding the three
signal files but no `Flow Events.txt`: `read_data` in `src/vis.py` reads the
events file unconditionally, so its absence raises `FileNotFoundError` and the
run aborts — for that script the missing file IS a fatal error and the
pipeline does not complete, contradicting the claim. -/
theorem read_data_missing_events_cex :
    (Vis.read_data ⟨some [], some [], some [], none⟩).isOk = false :=
  rfl

/-- C9 amended.  When the events file is absent, `plot` in `src/vis(8.7).py`
completes with an empty event list and emits the warning; but `read_data` in
`src/vis.py` reads `Flow Events.txt` unconditionally, so there the missing
file is a fatal error that aborts the run. -/
theorem missing_events_file_behavior
    (nf tf sf : List (Option ℚ)) (nf2 tf2 sf2 : List (ℕ × ℚ)) :
    Vis87.plot ⟨some nf, some tf, some sf, none⟩ =
      .ok (Vis87.load_signal nf 32, Vis87.load_signal tf 32,
        Vis87.load_signal sf 4, [], true) ∧
    (Vis.read_data ⟨some nf2, some tf2, some sf2, none⟩).isOk = false :=
  ⟨rfl, rfl⟩
